import Mathlib

/-!
# Verification of happy-mongoose-timestamps

A shallow embedding of the `happy-mongoose-timestamps` Mongoose plugin:

* `src/utils/index.js` — `getUpdateFields`, `blacklistedFieldExists`,
  `fieldIsBlacklisted` (the recursive dot-path blacklist matcher);
* the later plugin variant (with `forceCreateHook` and the
  `findOneAndUpdate` hook), namespace `LaterVariant`;
* the earlier plugin variant (`src/index.js`, whose injected
  set-on-insert clause also stamps the updated-at field), namespace
  `EarlierVariant`.

JavaScript strings are modelled as `List Char`; JavaScript objects used
as field maps are modelled as association lists `List (FieldPath × V)` whose
keys are the object's keys in insertion order.  Thrown exceptions are
modelled with `Except String`.  `new Date()` is modelled by reading a
clock stream `clock : Nat → V`: the n-th syntactic `new Date()` executed
by a hook invocation reads `clock n` (each hook body executes exactly
one, namely `const now = new Date()`, so only `clock 0` is ever read).
-/

/-- A JavaScript string used as a (possibly dot-delimited) field path. -/
abbrev FieldPath := List Char

/-- JavaScript `s.split('.')` on a string modelled as a char list:
`"" ↦ [""]`, `"a.b" ↦ ["a", "b"]`, `".a" ↦ ["", "a"]`, `"a." ↦ ["a", ""]`. -/
def splitOnDot : List Char → List (List Char)
  | [] => [[]]
  | c :: cs =>
    if c = '.' then [] :: splitOnDot cs
    else
      match splitOnDot cs with
      | [] => [[c]]
      | s :: ss => (c :: s) :: ss

/-- JavaScript `parts.join('.')`. -/
def joinDot : List (List Char) → List Char
  | [] => []
  | [s] => s
  | s :: rest => s ++ '.' :: joinDot rest

theorem splitOnDot_ne_nil (p : List Char) : splitOnDot p ≠ [] := by
  cases p with
  | nil => simp [splitOnDot]
  | cons c cs =>
    rw [splitOnDot]
    by_cases hc : c = '.'
    · simp [hc]
    · rw [if_neg hc]
      cases h : splitOnDot cs with
      | nil => simp
      | cons s ss => simp

theorem joinDot_cons_cons (s t : List Char) (r : List (List Char)) :
    joinDot (s :: t :: r) = s ++ '.' :: joinDot (t :: r) := by
  rfl

theorem joinDot_splitOnDot (p : List Char) : joinDot (splitOnDot p) = p := by
  induction p with
  | nil => rfl
  | cons c cs ih =>
    rw [splitOnDot]
    by_cases hc : c = '.'
    · rw [if_pos hc]
      cases h : splitOnDot cs with
      | nil => exact absurd h (splitOnDot_ne_nil cs)
      | cons s ss =>
        rw [h] at ih
        rw [joinDot_cons_cons, List.nil_append, ih, hc]
    · rw [if_neg hc]
      cases h : splitOnDot cs with
      | nil => exact absurd h (splitOnDot_ne_nil cs)
      | cons s ss =>
        rw [h] at ih
        cases ss with
        | nil =>
          simp only [joinDot] at ih ⊢
          rw [ih]
        | cons t ts =>
          rw [joinDot_cons_cons] at ih
          rw [joinDot_cons_cons, List.cons_append, ih]

/-- Every segment produced by `splitOnDot` is free of dots. -/
theorem splitOnDot_no_dot (p : List Char) : ∀ s ∈ splitOnDot p, '.' ∉ s := by
  induction p with
  | nil =>
    intro s hs
    simp [splitOnDot] at hs
    simp [hs]
  | cons c cs ih =>
    intro s hs
    rw [splitOnDot] at hs
    by_cases hc : c = '.'
    · rw [if_pos hc] at hs
      rcases List.mem_cons.mp hs with rfl | hs'
      · simp
      · exact ih s hs'
    · rw [if_neg hc] at hs
      cases h : splitOnDot cs with
      | nil => exact absurd h (splitOnDot_ne_nil cs)
      | cons t ts =>
        rw [h] at hs
        rcases List.mem_cons.mp hs with rfl | hs'
        · intro hmem
          rcases List.mem_cons.mp hmem with h1 | h2
          · exact hc h1.symm
          · exact ih t (h ▸ List.mem_cons_self t ts) h2
        · exact ih s (h ▸ List.mem_cons_of_mem t hs')

theorem joinDot_append_single (init : List (List Char)) (l : List Char) :
    joinDot (init ++ [l]) =
      if init = [] then l else joinDot init ++ '.' :: l := by
  induction init with
  | nil => simp [joinDot]
  | cons x xs ih =>
    cases xs with
    | nil => simp [joinDot]
    | cons y ys =>
      have h1 : (x :: y :: ys) ++ [l] = x :: ((y :: ys) ++ [l]) := rfl
      rw [h1]
      have h2 : (y :: ys) ++ [l] = y :: (ys ++ [l]) := rfl
      rw [h2, joinDot_cons_cons, ← h2, ih]
      simp only [reduceCtorEq, if_false, if_neg]
      rw [joinDot_cons_cons]
      simp [List.append_assoc]

/-- The parent path computed by the matcher's recursive step (JS:
`newPath = field.split('.'); newPath.splice(-1, 1); newPath.join('.')`)
is strictly shorter than the field, which justifies termination. -/
theorem parentPath_length_lt (p : List Char) (hp : p ≠ []) :
    (joinDot (List.dropLast (splitOnDot p))).length < p.length := by
  have hne := splitOnDot_ne_nil p
  have hsplit := joinDot_splitOnDot p
  have hdecomp :
      List.dropLast (splitOnDot p) ++ [(splitOnDot p).getLast hne] =
        splitOnDot p := List.dropLast_append_getLast hne
  rw [← hdecomp, joinDot_append_single] at hsplit
  by_cases hd : List.dropLast (splitOnDot p) = []
  · rw [hd]
    simp only [joinDot, List.length_nil]
    exact List.length_pos.mpr hp
  · rw [if_neg hd] at hsplit
    have hlen := congrArg List.length hsplit
    simp only [List.length_append, List.length_cons] at hlen
    omega

/-- `fieldIsBlacklisted` (src/utils/index.js): recursively checks whether
the field, or any of its dot-ancestors, occurs verbatim in the blacklist. -/
def fieldIsBlacklisted (blacklist : List FieldPath) (field : FieldPath) : Bool :=
  if _h : field = [] then
    false
  else
    let blacklistDoesApply := blacklist.contains field
    if blacklistDoesApply then
      true
    else
      let newPath := List.dropLast (splitOnDot field)
      let newField := joinDot newPath
      fieldIsBlacklisted blacklist newField
termination_by field.length
decreasing_by
  exact parentPath_length_lt field _h

theorem fieldIsBlacklisted_nil (blacklist : List FieldPath) :
    fieldIsBlacklisted blacklist [] = false := by
  rw [fieldIsBlacklisted]
  simp

theorem fieldIsBlacklisted_ne_nil (blacklist : List FieldPath) (field : FieldPath)
    (h : field ≠ []) :
    fieldIsBlacklisted blacklist field =
      (blacklist.contains field ||
        fieldIsBlacklisted blacklist (joinDot (List.dropLast (splitOnDot field)))) := by
  rw [fieldIsBlacklisted]
  rw [dif_neg h]
  by_cases hc : blacklist.contains field
  · simp [hc]
  · simp [hc]

/-- JavaScript `Object.keys` of a field map modelled as an association
list: the object's keys in insertion order. -/
def objectKeys {V : Type} (o : List (FieldPath × V)) : List FieldPath :=
  o.map Prod.fst

/-- `blacklistedFieldExists` (src/utils/index.js): whether any key of the
current operation's field map exists in the blacklist (directly or via a
dot-ancestor).  Returns `false` immediately when either argument is
empty. -/
def blacklistedFieldExists {V : Type} (blacklist : List FieldPath)
    (fieldsToCheck : List (FieldPath × V)) : Bool :=
  if blacklist.length = 0 ∨ (objectKeys fieldsToCheck).length = 0 then
    false
  else
    let blacklistDoesApply :=
      (objectKeys fieldsToCheck).any fun field => fieldIsBlacklisted blacklist field
    blacklistDoesApply

/-- The two Mongo update operators the plugin inspects.  Modelled from the
spec: `src/constants` is absent from the sources; the spec's "direct-set"
and "set-on-insert" clauses name the `$set` / `$setOnInsert` operators
(`MONGO_OPERATORS.SET_OPERATOR` / `MONGO_OPERATORS.SET_ON_INSERT_OPERATOR`). -/
inductive MongoOperator : Type
  | set
  | setOnInsert
deriving DecidableEq

/-- An update operation descriptor as the hooks see it: its `$set` clause
and its `$setOnInsert` clause, each an optional field map (absent clause =
`none`, mirroring an absent object property in JavaScript). -/
structure UpdateOp (V : Type) : Type where
  set : Option (List (FieldPath × V))
  setOnInsert : Option (List (FieldPath × V))
deriving DecidableEq

/-- Property access `updateOperation[operator]`. -/
def UpdateOp.clause {V : Type} (op : UpdateOp V) : MongoOperator → Option (List (FieldPath × V))
  | MongoOperator.set => op.set
  | MongoOperator.setOnInsert => op.setOnInsert

/-- `getUpdateFields` (src/utils/index.js): extracts the field map nested
under the given operator, throwing when either argument is absent.
A JavaScript-falsy `updateOperation` or `operator` is modelled as `none`. -/
def getUpdateFields {V : Type} (updateOperation : Option (UpdateOp V))
    (operator : Option MongoOperator) :
    Except String (Option (List (FieldPath × V))) :=
  match updateOperation with
  | none => Except.error "updateOperation is undefined."
  | some op =>
    match operator with
    | none => Except.error "operator is undefined. Expected $set or $setOnInsert."
    | some o => Except.ok (op.clause o)

/-- The JavaScript truthiness pattern
`currentSetFields && blacklistedFieldExists(blacklist, currentSetFields)`
used by `updateFunc`: an absent clause is falsy, so it is never treated as
blacklisted. -/
def clauseIsBlacklisted {V : Type} (blacklist : List FieldPath)
    (m : Option (List (FieldPath × V))) : Bool :=
  match m with
  | none => false
  | some fields => blacklistedFieldExists blacklist fields

/-- What an update hook invocation does before calling `next()`: either it
leaves the operation alone, or it calls `this.update({}, doc)` with an
additional clause document `doc`. -/
inductive HookOutcome (V : Type) : Type
  | proceed
  | inject (doc : UpdateOp V)
deriving DecidableEq

/-- Modelled from the spec: the host collaborator's "method to append
additional clauses to the same write" (spec §6); clause maps are combined
additively, so the timestamp writes are added and the originally requested
writes stay in the operation. -/
def mergeClause {V : Type} :
    Option (List (FieldPath × V)) → Option (List (FieldPath × V)) →
      Option (List (FieldPath × V))
  | none, none => none
  | some a, none => some a
  | none, some b => some b
  | some a, some b => some (a ++ b)

/-- Modelled from the spec: merging an injected clause document into the
in-flight update operation (host collaborator behaviour, spec §6). -/
def mergeUpdate {V : Type} (original injected : UpdateOp V) : UpdateOp V :=
  { set := mergeClause original.set injected.set
    setOnInsert := mergeClause original.setOnInsert injected.setOnInsert }

/-- The update operation the host dispatches after the hook ran. -/
def applyHookOutcome {V : Type} (original : UpdateOp V) :
    HookOutcome V → UpdateOp V
  | HookOutcome.proceed => original
  | HookOutcome.inject doc => mergeUpdate original doc

/-- The entries of an optional clause (an absent clause has none). -/
def clauseEntries {V : Type} : Option (List (FieldPath × V)) → List (FieldPath × V)
  | none => []
  | some l => l

/-- JavaScript property assignment `doc[key] = v` on a document modelled
as an association list: overwrite the existing entry or append a new one. -/
def setProp {V : Type} : List (FieldPath × V) → FieldPath → V → List (FieldPath × V)
  | [], k, v => [(k, v)]
  | (k', v') :: rest, k, v =>
    if k' = k then (k, v) :: rest else (k', v') :: setProp rest k v

/-- JavaScript property read `doc[key]` on a document modelled as an
association list. -/
def getProp {V : Type} : List (FieldPath × V) → FieldPath → Option V
  | [], _ => none
  | (k', v') :: rest, k => if k' = k then some v' else getProp rest k

theorem getProp_setProp_self {V : Type} (doc : List (FieldPath × V))
    (k : FieldPath) (v : V) : getProp (setProp doc k v) k = some v := by
  induction doc with
  | nil => simp [setProp, getProp]
  | cons hd rest ih =>
    obtain ⟨k', v'⟩ := hd
    by_cases h : k' = k
    · simp [setProp, h, getProp]
    · simp [setProp, h, getProp, ih]

theorem getProp_setProp_other {V : Type} (doc : List (FieldPath × V))
    (k k' : FieldPath) (v : V) (h : k' ≠ k) :
    getProp (setProp doc k v) k' = getProp doc k' := by
  have h' : k ≠ k' := fun he => h he.symm
  induction doc with
  | nil => simp [setProp, getProp, h']
  | cons hd rest ih =>
    obtain ⟨k0, v0⟩ := hd
    by_cases h0 : k0 = k
    · subst h0
      simp [setProp, getProp, h']
    · by_cases h1 : k0 = k'
      · subst h1
        simp [setProp, h0, getProp]
      · simp [setProp, h0, getProp, h1, ih]

/-- Default created-at field name.  Modelled from the spec: `src/constants`
(`DATA_FIELDS.DEFAULT_CREATED_AT_FIELD`) is absent from the sources; the
spec's configuration table gives the default `"createdAt"`. -/
def DEFAULT_CREATED_AT_FIELD : FieldPath :=
  ['c', 'r', 'e', 'a', 't', 'e', 'd', 'A', 't']

/-- Default updated-at field name.  Modelled from the spec: `src/constants`
(`DATA_FIELDS.DEFAULT_UPDATED_AT_FIELD`) is absent from the sources; the
spec's configuration table gives the default `"updatedAt"`. -/
def DEFAULT_UPDATED_AT_FIELD : FieldPath :=
  ['u', 'p', 'd', 'a', 't', 'e', 'd', 'A', 't']

/-- The plugin's options object.  String-valued options are `none` when
absent; JavaScript `options.x || default` treats the empty string as falsy,
which `jsStrOr` reproduces.  Boolean options model JavaScript truthiness of
the corresponding properties. -/
structure Options : Type where
  createdAt : Option FieldPath := none
  updatedAt : Option FieldPath := none
  shouldUpdateSchema : Bool := false
  blacklist : Option (List FieldPath) := none
  disableSaveHook : Bool := false
  forceCreateHook : Bool := false
  disableUpdateHook : Bool := false
  disableUpdateOneHook : Bool := false
  disableFindOneAndUpdate : Bool := false
deriving DecidableEq

/-- JavaScript `s || d` for an optional string option (absent or empty
string falls back to the default). -/
def jsStrOr (s : Option FieldPath) (d : FieldPath) : FieldPath :=
  match s with
  | none => d
  | some v => if v = [] then d else v

/-- The host schema object, abstracted to what the plugin touches: the set
of truthy field properties (read by `handleUpdateSchema`) which
`schema.add` extends. -/
structure SchemaModel : Type where
  declared : List FieldPath
deriving DecidableEq

/-- `schema.add({ [field]: Date })`. -/
def SchemaModel.add (s : SchemaModel) (field : FieldPath) : SchemaModel :=
  { declared := s.declared ++ [field] }

/-- The lifecycle events a hook can be registered for via `schema.pre`. -/
inductive RegEvent : Type
  | save
  | update
  | updateOne
  | findOneAndUpdate
deriving DecidableEq

/-- The configuration state a successfully constructed plugin instance
holds (the symbol-keyed private fields of `HappyMongooseTimestamps`). -/
structure PluginState : Type where
  schema : SchemaModel
  options : Options
  blacklist : List FieldPath
  createdAt : FieldPath
  updatedAt : FieldPath
deriving DecidableEq

/-- `updateSchema` (both variants): adds the field to the schema, throwing
when the field name is falsy. -/
def updateSchemaField (s : SchemaModel) (field : FieldPath) :
    Except String SchemaModel :=
  if field = [] then
    Except.error "Failed to update schema, field is undefined."
  else
    Except.ok (s.add field)

/-- `handleUpdateSchema` (both variants): add the created-at / updated-at
fields to the schema when they are not already truthy properties. -/
def handleUpdateSchema (s : SchemaModel) (createdAt updatedAt : FieldPath) :
    Except String SchemaModel := do
  let createdAtFieldExists := s.declared.contains createdAt
  let updateFieldExists := s.declared.contains updatedAt
  let s1 ← if createdAtFieldExists then pure s else updateSchemaField s createdAt
  let s2 ← if updateFieldExists then pure s1 else updateSchemaField s1 updatedAt
  pure s2

/-- The `HappyMongooseTimestamps` constructor (both variants have the same
body): throws when no schema is given, otherwise resolves the blacklist
and field names and optionally updates the schema.  A JavaScript-falsy
`schema` argument is modelled as `none`. -/
def hmtConstructor (schema : Option SchemaModel) (options : Options) :
    Except String PluginState := do
  match schema with
  | none => Except.error "Schema is required."
  | some s =>
    let blacklist := options.blacklist.getD []
    let createdAt := jsStrOr options.createdAt DEFAULT_CREATED_AT_FIELD
    let updatedAt := jsStrOr options.updatedAt DEFAULT_UPDATED_AT_FIELD
    let s' ←
      if options.shouldUpdateSchema then handleUpdateSchema s createdAt updatedAt
      else pure s
    pure { schema := s', options := options, blacklist := blacklist,
           createdAt := createdAt, updatedAt := updatedAt }

namespace LaterVariant

/-- `saveFunc` — the closure returned by `getSaveHook` in the later variant
(the one with `forceCreateHook`), run on a document before a save:
it may stamp the created-at / updated-at properties of the document.
Captured configuration: `shouldDisableSaveHook`, `shouldForceCreateHook`,
`createdAtField`, `updatedAtField`.  `isNew` is `this.isNew`; `clock 0` is
the single `new Date()` the body executes; the returned document is the
state in which `next()` lets the save proceed. -/
def saveFunc {V : Type} (shouldDisableSaveHook shouldForceCreateHook : Bool)
    (createdAtField updatedAtField : FieldPath) (isNew : Bool)
    (doc : List (FieldPath × V)) (clock : Nat → V) : List (FieldPath × V) :=
  let canEnterSaveFunction :=
    !(shouldDisableSaveHook && (!shouldForceCreateHook || !isNew))
  if !canEnterSaveFunction then
    doc
  else
    let now := clock 0
    if isNew then
      setProp (setProp doc createdAtField now) updatedAtField now
    else
      setProp doc updatedAtField now

/-- `updateFunc` — the closure returned by `getUpdateHook` in the later
variant, run before an update-type operation.  `getUpdate` is what
`this.getUpdate()` returns (`none` when falsy); the outcome says whether
`this.update({}, …)` was called, and with which clause document, before
`next()`. -/
def updateFunc {V : Type} (blacklist : List FieldPath)
    (createdAtField updatedAtField : FieldPath)
    (getUpdate : Option (UpdateOp V)) (clock : Nat → V) :
    Except String (HookOutcome V) := do
  let now := clock 0
  let currentUpdateOp := getUpdate
  let currentSetFields ← getUpdateFields currentUpdateOp (some MongoOperator.set)
  let currentSetOnInsertFields ←
    getUpdateFields currentUpdateOp (some MongoOperator.setOnInsert)
  let setFieldsAreBlacklisted := clauseIsBlacklisted blacklist currentSetFields
  let setOnInsertFieldsAreBlacklisted :=
    clauseIsBlacklisted blacklist currentSetOnInsertFields
  if setFieldsAreBlacklisted || setOnInsertFieldsAreBlacklisted then
    pure HookOutcome.proceed
  else
    pure (HookOutcome.inject
      { set := some [(updatedAtField, now)]
        setOnInsert := some [(createdAtField, now)] })

/-- The later variant's default export: construct the plugin, then attach
`save` (unconditionally), `update`, `updateOne` and `findOneAndUpdate`
(each unless its disable option is truthy).  The result is the plugin's
configuration state together with the list of registered hook events. -/
def attachPlugin (schema : Option SchemaModel) (options : Options) :
    Except String (PluginState × List RegEvent) := do
  let plugin ← hmtConstructor schema options
  let regs :=
    [RegEvent.save]
      ++ (if options.disableUpdateHook then [] else [RegEvent.update])
      ++ (if options.disableUpdateOneHook then [] else [RegEvent.updateOne])
      ++ (if options.disableFindOneAndUpdate then [] else [RegEvent.findOneAndUpdate])
  pure (plugin, regs)

end LaterVariant

namespace EarlierVariant

/-- `saveFunc` — the closure returned by `getSaveHook` in the earlier
variant (src/index.js): no `forceCreateHook`; the disable switch instead
suppresses hook registration (see `attachPlugin`). -/
def saveFunc {V : Type} (createdAtField updatedAtField : FieldPath)
    (isNew : Bool) (doc : List (FieldPath × V)) (clock : Nat → V) :
    List (FieldPath × V) :=
  let now := clock 0
  if isNew then
    setProp (setProp doc createdAtField now) updatedAtField now
  else
    setProp doc updatedAtField now

/-- `updateFunc` — the closure returned by `getUpdateHook` in the earlier
variant (src/index.js): identical to the later variant except that the
injected set-on-insert clause stamps both the created-at and the
updated-at fields. -/
def updateFunc {V : Type} (blacklist : List FieldPath)
    (createdAtField updatedAtField : FieldPath)
    (getUpdate : Option (UpdateOp V)) (clock : Nat → V) :
    Except String (HookOutcome V) := do
  let now := clock 0
  let currentUpdateOp := getUpdate
  let currentSetFields ← getUpdateFields currentUpdateOp (some MongoOperator.set)
  let currentSetOnInsertFields ←
    getUpdateFields currentUpdateOp (some MongoOperator.setOnInsert)
  let setFieldsAreBlacklisted := clauseIsBlacklisted blacklist currentSetFields
  let setOnInsertFieldsAreBlacklisted :=
    clauseIsBlacklisted blacklist currentSetOnInsertFields
  if setFieldsAreBlacklisted || setOnInsertFieldsAreBlacklisted then
    pure HookOutcome.proceed
  else
    pure (HookOutcome.inject
      { set := some [(updatedAtField, now)]
        setOnInsert := some [(createdAtField, now), (updatedAtField, now)] })

/-- The earlier variant's default export: construct the plugin, then attach
`save`, `update` and `updateOne`, each unless its disable option is truthy
(no `findOneAndUpdate` hook in this variant). -/
def attachPlugin (schema : Option SchemaModel) (options : Options) :
    Except String (PluginState × List RegEvent) := do
  let plugin ← hmtConstructor schema options
  let regs :=
    (if options.disableSaveHook then [] else [RegEvent.save])
      ++ (if options.disableUpdateHook then [] else [RegEvent.update])
      ++ (if options.disableUpdateOneHook then [] else [RegEvent.updateOne])
  pure (plugin, regs)

end EarlierVariant

/-- The specification's characterization of path coverage (spec §8): path
`p` is covered by the blacklist iff some entry `e` satisfies `p = e` or
`p` starts with `e ++ "."`. -/
def specCovered (blacklist : List FieldPath) (p : FieldPath) : Prop :=
  ∃ e ∈ blacklist, p = e ∨ ∃ rest, p = e ++ '.' :: rest

/-- Decomposing a dotted-extension equation: if `e ++ '.' :: rest` equals
`a ++ '.' :: b` where `b` contains no dot, then `e` is `a` itself or ends
strictly before the final dot, i.e. `a` extends `e` by a dot. -/
theorem dotted_eq_decomp (e a b rest : List Char) (hb : '.' ∉ b)
    (heq : e ++ '.' :: rest = a ++ '.' :: b) :
    e = a ∨ ∃ r, a = e ++ '.' :: r := by
  induction e generalizing a with
  | nil =>
    cases a with
    | nil => exact Or.inl rfl
    | cons x a' =>
      rw [List.nil_append, List.cons_append] at heq
      obtain ⟨hx, -⟩ := List.cons.inj heq
      right
      exact ⟨a', by rw [List.nil_append, ← hx]⟩
  | cons d e' ih =>
    cases a with
    | nil =>
      rw [List.cons_append, List.nil_append] at heq
      obtain ⟨hd, hb'⟩ := List.cons.inj heq
      exact absurd (hb' ▸ List.mem_append_right e' (List.mem_cons_self '.' rest)) hb
    | cons x a' =>
      rw [List.cons_append, List.cons_append] at heq
      obtain ⟨hdx, htail⟩ := List.cons.inj heq
      rcases ih a' htail with h1 | ⟨r, hr⟩
      · left
        rw [hdx, h1]
      · right
        refine ⟨r, ?_⟩
        rw [List.cons_append, ← hdx, hr]

/-- The inductive core of the matcher characterization: on any path whose
first character exists and is not a dot, `fieldIsBlacklisted` decides
exactly the spec's coverage relation. -/
theorem fieldIsBlacklisted_iff_specCovered_aux (B : List FieldPath) :
    ∀ n (p : FieldPath), p.length ≤ n → ∀ c cs, p = c :: cs → c ≠ '.' →
      (fieldIsBlacklisted B p = true ↔ specCovered B p) := by
  intro n
  induction n with
  | zero =>
    intro p hlen c cs hp _
    subst hp
    simp at hlen
  | succ n ih =>
    intro p hlen c cs hp hc
    have hpne : p ≠ [] := by rw [hp]; exact List.cons_ne_nil c cs
    have hsegne := splitOnDot_ne_nil p
    have hjoin := joinDot_splitOnDot p
    rw [fieldIsBlacklisted_ne_nil B p hpne]
    cases hsegs : splitOnDot p with
    | nil => exact absurd hsegs hsegne
    | cons s0 ss =>
      cases ss with
      | nil =>
        -- single segment: p = s0, no dot occurs in p, the parent is empty
        have hps : p = s0 := by rw [hsegs] at hjoin; exact hjoin.symm
        have hnodot : '.' ∉ p := by
          rw [hps]
          exact splitOnDot_no_dot p s0 (hsegs ▸ List.mem_cons_self s0 [])
        have hfibnil : fieldIsBlacklisted B (joinDot (List.dropLast [s0])) = false :=
          fieldIsBlacklisted_nil B
        have hciff : B.contains p = true ↔ p ∈ B := List.elem_iff
        rw [hfibnil, Bool.or_false, hciff]
        constructor
        · intro hmem
          exact ⟨p, hmem, Or.inl rfl⟩
        · rintro ⟨e, he, rfl | ⟨rest, hrest⟩⟩
          · exact he
          · exact absurd
              (hrest ▸ List.mem_append_right e (List.mem_cons_self '.' rest))
              hnodot
      | cons s1 ss' =>
        -- at least two segments: p = parent ++ '.' :: last
        have hdlne : List.dropLast (splitOnDot p) = s0 :: List.dropLast (s1 :: ss') := by
          rw [hsegs]; rfl
        have hlast_mem : (splitOnDot p).getLast hsegne ∈ splitOnDot p :=
          List.getLast_mem hsegne
        have hlast_nodot : '.' ∉ (splitOnDot p).getLast hsegne :=
          splitOnDot_no_dot p _ hlast_mem
        have hdecomp :
            List.dropLast (splitOnDot p) ++ [(splitOnDot p).getLast hsegne] =
              splitOnDot p := List.dropLast_append_getLast hsegne
        have hpp :
            p = joinDot (List.dropLast (splitOnDot p)) ++
              '.' :: (splitOnDot p).getLast hsegne := by
          conv_lhs => rw [← hjoin, ← hdecomp]
          rw [joinDot_append_single, if_neg (by rw [hdlne]; exact List.cons_ne_nil _ _)]
        set pp := joinDot (List.dropLast (splitOnDot p)) with hppdef
        -- the parent still starts with the same non-dot character
        have hs0 : ∃ s0', s0 = c :: s0' := by
          have : s0 ++ '.' :: joinDot (s1 :: ss') = c :: cs := by
            rw [hsegs, joinDot_cons_cons] at hjoin
            rw [← hp, hjoin]
          cases s0 with
          | nil =>
            rw [List.nil_append] at this
            exact absurd (List.cons.inj this).1.symm hc
          | cons d s0' =>
            rw [List.cons_append] at this
            exact ⟨s0', by rw [(List.cons.inj this).1]⟩
        obtain ⟨s0', hs0'⟩ := hs0
        have hppcons : ∃ tail, pp = c :: tail := by
          rw [hppdef, hdlne, hs0']
          cases hdl2 : List.dropLast (s1 :: ss') with
          | nil => exact ⟨s0', rfl⟩
          | cons t ts =>
            rw [joinDot_cons_cons, List.cons_append]
            exact ⟨s0' ++ '.' :: joinDot (t :: ts), rfl⟩
        obtain ⟨tail, htail⟩ := hppcons
        have hpplen : pp.length ≤ n := by
          have h1 := congrArg List.length hpp
          rw [List.length_append, List.length_cons] at h1
          omega
        have hih := ih pp hpplen c tail htail hc
        have hgoal : joinDot (List.dropLast (s0 :: s1 :: ss')) = pp := by
          rw [hppdef, hsegs]
        have hciff : B.contains p = true ↔ p ∈ B := List.elem_iff
        rw [hgoal, Bool.or_eq_true, hciff, hih]
        constructor
        · rintro (hmem | hcov)
          · exact ⟨p, hmem, Or.inl rfl⟩
          · obtain ⟨e, he, hcase | ⟨r, hr⟩⟩ := hcov
            · refine ⟨e, he, Or.inr ⟨(splitOnDot p).getLast hsegne, ?_⟩⟩
              exact hpp.trans (by rw [hcase])
            · refine ⟨e, he, Or.inr ⟨r ++ '.' :: (splitOnDot p).getLast hsegne, ?_⟩⟩
              refine hpp.trans ?_
              rw [hr, List.append_assoc, List.cons_append]
        · rintro ⟨e, he, heq | ⟨rest, hrest⟩⟩
          · exact Or.inl (heq ▸ he)
          · have hdd := dotted_eq_decomp e pp ((splitOnDot p).getLast hsegne) rest
              hlast_nodot (by rw [← hrest, ← hpp])
            rcases hdd with heq | ⟨r, hr⟩
            · exact Or.inr ⟨e, he, Or.inl heq.symm⟩
            · exact Or.inr ⟨e, he, Or.inr ⟨r, hr⟩⟩

/-- With an empty blacklist the matcher rejects every field: the verbatim
membership test fails at every recursion step. -/
theorem fieldIsBlacklisted_empty_aux :
    ∀ (n : Nat) (p : FieldPath), p.length ≤ n → fieldIsBlacklisted [] p = false := by
  intro n
  induction n with
  | zero =>
    intro p hp
    have hnil : p = [] := List.length_eq_zero.mp (Nat.le_zero.mp hp)
    rw [hnil, fieldIsBlacklisted_nil]
  | succ n ih =>
    intro p hp
    by_cases h : p = []
    · rw [h, fieldIsBlacklisted_nil]
    · rw [fieldIsBlacklisted_ne_nil [] p h]
      have hlt := parentPath_length_lt p h
      rw [ih _ (by omega)]
      rfl

/-- If the field occurs verbatim in the blacklist (and is non-empty), the
matcher accepts it without recursing. -/
theorem fieldIsBlacklisted_of_contains (B : List FieldPath) (p : FieldPath)
    (hne : p ≠ []) (h : B.contains p = true) :
    fieldIsBlacklisted B p = true := by
  rw [fieldIsBlacklisted_ne_nil B p hne, h, Bool.true_or]

/-- `List.any` is invariant under permutation of the list. -/
theorem perm_any_eq {α : Type} (l1 l2 : List α) (h : l1.Perm l2) (f : α → Bool) :
    l1.any f = l2.any f := by
  rcases h1 : l1.any f with _ | _ <;> rcases h2 : l2.any f with _ | _ <;> try rfl
  · rw [List.any_eq_true] at h2
    rw [List.any_eq_false] at h1
    obtain ⟨x, hx, hfx⟩ := h2
    exact absurd hfx (by simpa using h1 x (h.mem_iff.mpr hx))
  · rw [List.any_eq_true] at h1
    rw [List.any_eq_false] at h2
    obtain ⟨x, hx, hfx⟩ := h1
    exact absurd hfx (by simpa using h2 x (h.mem_iff.mp hx))

/-- Setting two (possibly equal) properties to the same value makes both
readable with that value. -/
theorem getProp_setProp_both {V : Type} (doc : List (FieldPath × V))
    (c u : FieldPath) (v : V) :
    getProp (setProp (setProp doc c v) u v) c = some v ∧
    getProp (setProp (setProp doc c v) u v) u = some v := by
  refine ⟨?_, getProp_setProp_self _ u v⟩
  by_cases h : c = u
  · rw [h]
    exact getProp_setProp_self _ u v
  · rw [getProp_setProp_other (setProp doc c v) u c v h]
    exact getProp_setProp_self doc c v

/-- Additive clause merging keeps every entry of the original clause. -/
theorem mergeClause_preserves {V : Type} (a b : Option (List (FieldPath × V))) :
    ∀ kv ∈ clauseEntries a, kv ∈ clauseEntries (mergeClause a b) := by
  intro kv hkv
  cases a with
  | none => simp [clauseEntries] at hkv
  | some l =>
    cases b with
    | none => exact hkv
    | some m => exact List.mem_append_left m hkv

/-- Evaluation equation for the later variant's update hook on a present
update operation: the hook's outcome is decided by the two blacklist
verdicts. -/
theorem updateFunc_eq_later {V : Type} (blacklist : List FieldPath)
    (createdAtField updatedAtField : FieldPath) (op : UpdateOp V) (clock : Nat → V) :
    LaterVariant.updateFunc blacklist createdAtField updatedAtField (some op) clock =
      (if clauseIsBlacklisted blacklist op.set ||
          clauseIsBlacklisted blacklist op.setOnInsert then
        Except.ok HookOutcome.proceed
      else
        Except.ok (HookOutcome.inject
          (⟨some [(updatedAtField, clock 0)],
            some [(createdAtField, clock 0)]⟩ : UpdateOp V))) := by
  rfl

/-- Evaluation equation for the earlier variant's update hook on a present
update operation. -/
theorem updateFunc_eq_earlier {V : Type} (blacklist : List FieldPath)
    (createdAtField updatedAtField : FieldPath) (op : UpdateOp V) (clock : Nat → V) :
    EarlierVariant.updateFunc blacklist createdAtField updatedAtField (some op) clock =
      (if clauseIsBlacklisted blacklist op.set ||
          clauseIsBlacklisted blacklist op.setOnInsert then
        Except.ok HookOutcome.proceed
      else
        Except.ok (HookOutcome.inject
          (⟨some [(updatedAtField, clock 0)],
            some [(createdAtField, clock 0), (updatedAtField, clock 0)]⟩ : UpdateOp V))) := by
  rfl

/-- When neither clause is blacklisted, the later variant injects exactly
the direct-set of the updated-at field and the set-on-insert of the
created-at field. -/
theorem updateFunc_not_covered_later {V : Type} (blacklist : List FieldPath)
    (createdAtField updatedAtField : FieldPath) (op : UpdateOp V) (clock : Nat → V)
    (h1 : clauseIsBlacklisted blacklist op.set = false)
    (h2 : clauseIsBlacklisted blacklist op.setOnInsert = false) :
    LaterVariant.updateFunc blacklist createdAtField updatedAtField (some op) clock =
      Except.ok (HookOutcome.inject
        (⟨some [(updatedAtField, clock 0)],
          some [(createdAtField, clock 0)]⟩ : UpdateOp V)) := by
  rw [updateFunc_eq_later, h1, h2]
  rfl

/-- When neither clause is blacklisted, the earlier variant injects the
direct-set of the updated-at field and a set-on-insert of both fields. -/
theorem updateFunc_not_covered_earlier {V : Type} (blacklist : List FieldPath)
    (createdAtField updatedAtField : FieldPath) (op : UpdateOp V) (clock : Nat → V)
    (h1 : clauseIsBlacklisted blacklist op.set = false)
    (h2 : clauseIsBlacklisted blacklist op.setOnInsert = false) :
    EarlierVariant.updateFunc blacklist createdAtField updatedAtField (some op) clock =
      Except.ok (HookOutcome.inject
        (⟨some [(updatedAtField, clock 0)],
          some [(createdAtField, clock 0), (updatedAtField, clock 0)]⟩ : UpdateOp V)) := by
  rw [updateFunc_eq_earlier, h1, h2]
  rfl

/-- When either clause is blacklisted, both variants' update hooks proceed
without injecting anything. -/
theorem updateFunc_covered {V : Type} (blacklist : List FieldPath)
    (createdAtField updatedAtField : FieldPath) (op : UpdateOp V) (clock : Nat → V)
    (h : (clauseIsBlacklisted blacklist op.set ||
      clauseIsBlacklisted blacklist op.setOnInsert) = true) :
    LaterVariant.updateFunc blacklist createdAtField updatedAtField (some op) clock =
      Except.ok HookOutcome.proceed ∧
    EarlierVariant.updateFunc blacklist createdAtField updatedAtField (some op) clock =
      Except.ok HookOutcome.proceed := by
  rw [updateFunc_eq_later, updateFunc_eq_earlier, h]
  exact ⟨rfl, rfl⟩

/-- Evaluation of the later variant's save hook on a new document when the
hook is allowed to run (`disableSaveHook && !forceCreateHook` is false):
both timestamp fields are stamped with the single clock read. -/
theorem LaterVariant.saveFunc_new_enabled {V : Type}
    (shouldDisableSaveHook shouldForceCreateHook : Bool)
    (createdAtField updatedAtField : FieldPath) (doc : List (FieldPath × V))
    (clock : Nat → V)
    (h : (shouldDisableSaveHook && !shouldForceCreateHook) = false) :
    LaterVariant.saveFunc shouldDisableSaveHook shouldForceCreateHook
        createdAtField updatedAtField true doc clock =
      setProp (setProp doc createdAtField (clock 0)) updatedAtField (clock 0) := by
  cases shouldDisableSaveHook with
  | false => rfl
  | true =>
    cases shouldForceCreateHook with
    | false => simp at h
    | true => rfl

/-- C1: for every blacklist `B` and every non-empty dot-delimited path `p`
(its first character exists and is not the separator), the path matcher
`fieldIsBlacklisted` returns true iff some entry `e` of `B` satisfies
`p = e` or `p` starts with `e ++ "."`; in particular a blacklist entry
that is a strict descendant of a written path never matches that path,
since such an entry satisfies neither disjunct. -/
theorem claim_C1_matcher_characterization (blacklist : List FieldPath)
    (p : FieldPath) (hne : p ≠ []) (hdot : p.head? ≠ some '.') :
    fieldIsBlacklisted blacklist p = true ↔ specCovered blacklist p := by
  cases p with
  | nil => exact absurd rfl hne
  | cons c cs =>
    have hc : c ≠ '.' := fun h => hdot (by rw [h]; rfl)
    exact fieldIsBlacklisted_iff_specCovered_aux blacklist (c :: cs).length (c :: cs)
      (le_refl _) c cs rfl hc

/-- Witness for C1: blacklist `["foo"]`, path `"foo.bar"`. -/
theorem claim_C1_matcher_characterization_witness :
    ((['f','o','o','.','b','a','r'] : FieldPath) ≠ [] ∧
      (['f','o','o','.','b','a','r'] : FieldPath).head? ≠ some '.') ∧
    (fieldIsBlacklisted [['f','o','o']] ['f','o','o','.','b','a','r'] = true ↔
      specCovered [['f','o','o']] ['f','o','o','.','b','a','r']) :=
  ⟨by decide,
    claim_C1_matcher_characterization [['f','o','o']] ['f','o','o','.','b','a','r']
      (by decide) (by decide)⟩

/-- C3: on the insert path (`isNew = true`) with `disableSaveHook = true`,
the later variant's save hook stamps both the created-at field and the
updated-at field with the same instant exactly when `forceCreateHook =
true`; with `forceCreateHook = false` it returns the document unmodified. -/
theorem claim_C3_disabled_save_forced_create {V : Type} (forceCreateHook : Bool)
    (createdAtField updatedAtField : FieldPath) (doc : List (FieldPath × V))
    (clock : Nat → V) :
    LaterVariant.saveFunc true forceCreateHook createdAtField updatedAtField
        true doc clock =
      (if forceCreateHook then
        setProp (setProp doc createdAtField (clock 0)) updatedAtField (clock 0)
      else doc) ∧
    getProp (LaterVariant.saveFunc true true createdAtField updatedAtField
        true doc clock) createdAtField = some (clock 0) ∧
    getProp (LaterVariant.saveFunc true true createdAtField updatedAtField
        true doc clock) updatedAtField = some (clock 0) := by
  have heval : LaterVariant.saveFunc true true createdAtField updatedAtField
      true doc clock =
        setProp (setProp doc createdAtField (clock 0)) updatedAtField (clock 0) := rfl
  refine ⟨?_, ?_, ?_⟩
  · cases forceCreateHook with
    | false => rfl
    | true => rfl
  · rw [heval]
    exact (getProp_setProp_both doc createdAtField updatedAtField (clock 0)).1
  · rw [heval]
    exact (getProp_setProp_both doc createdAtField updatedAtField (clock 0)).2

/-- C4: when the blacklist covers a key of the direct-set map or of the
set-on-insert map, both variants' update hooks call the continuation
without touching the operation: the outcome is `proceed` and applying it
leaves every clause of the operation exactly as requested. -/
theorem claim_C4_covered_leaves_operation_unchanged {V : Type}
    (blacklist : List FieldPath) (createdAtField updatedAtField : FieldPath)
    (op : UpdateOp V) (clock : Nat → V)
    (h : clauseIsBlacklisted blacklist op.set = true ∨
      clauseIsBlacklisted blacklist op.setOnInsert = true) :
    LaterVariant.updateFunc blacklist createdAtField updatedAtField (some op) clock =
      Except.ok HookOutcome.proceed ∧
    EarlierVariant.updateFunc blacklist createdAtField updatedAtField (some op) clock =
      Except.ok HookOutcome.proceed ∧
    applyHookOutcome op HookOutcome.proceed = op := by
  have hcond : (clauseIsBlacklisted blacklist op.set ||
      clauseIsBlacklisted blacklist op.setOnInsert) = true := by
    rcases h with h | h <;> simp [h]
  obtain ⟨hl, he⟩ := updateFunc_covered blacklist createdAtField updatedAtField
    op clock hcond
  exact ⟨hl, he, rfl⟩

/-- Witness for C4: blacklist `["foo"]`, direct-set writing `foo`. -/
theorem claim_C4_covered_leaves_operation_unchanged_witness :
    (clauseIsBlacklisted [['f','o','o']]
        ((⟨some [(['f','o','o'], (1 : Nat))], none⟩ : UpdateOp Nat)).set = true ∨
      clauseIsBlacklisted [['f','o','o']]
        ((⟨some [(['f','o','o'], (1 : Nat))], none⟩ : UpdateOp Nat)).setOnInsert = true) ∧
    (LaterVariant.updateFunc [['f','o','o']] ['c'] ['u']
        (some (⟨some [(['f','o','o'], (1 : Nat))], none⟩ : UpdateOp Nat))
        (fun _ => 9) = Except.ok HookOutcome.proceed ∧
      EarlierVariant.updateFunc [['f','o','o']] ['c'] ['u']
        (some (⟨some [(['f','o','o'], (1 : Nat))], none⟩ : UpdateOp Nat))
        (fun _ => 9) = Except.ok HookOutcome.proceed ∧
      applyHookOutcome (⟨some [(['f','o','o'], (1 : Nat))], none⟩ : UpdateOp Nat)
        HookOutcome.proceed =
          (⟨some [(['f','o','o'], (1 : Nat))], none⟩ : UpdateOp Nat)) := by
  have hfib : fieldIsBlacklisted [['f','o','o']] ['f','o','o'] = true :=
    fieldIsBlacklisted_of_contains [['f','o','o']] ['f','o','o'] (by decide) (by decide)
  have hcl : clauseIsBlacklisted [['f','o','o']]
      ((⟨some [(['f','o','o'], (1 : Nat))], none⟩ : UpdateOp Nat)).set = true := by
    simp [clauseIsBlacklisted, blacklistedFieldExists, objectKeys, hfib]
  exact ⟨Or.inl hcl,
    claim_C4_covered_leaves_operation_unchanged [['f','o','o']] ['c'] ['u']
      (⟨some [(['f','o','o'], (1 : Nat))], none⟩ : UpdateOp Nat) (fun _ => 9)
      (Or.inl hcl)⟩

/-- C5: `blacklistedFieldExists` returns false whenever the blacklist is
empty or the field map is empty (the guard short-circuits before any
per-field evaluation), and the matcher itself rejects every path against
an empty blacklist. -/
theorem claim_C5_empty_inputs_never_covered {V : Type} (blacklist : List FieldPath)
    (fields : List (FieldPath × V)) (p : FieldPath) :
    blacklistedFieldExists ([] : List FieldPath) fields = false ∧
    blacklistedFieldExists blacklist ([] : List (FieldPath × V)) = false ∧
    fieldIsBlacklisted [] p = false := by
  refine ⟨?_, ?_, fieldIsBlacklisted_empty_aux p.length p (le_refl _)⟩
  · simp [blacklistedFieldExists]
  · simp [blacklistedFieldExists, objectKeys]

/-- C7: the covered/not-covered verdict of `blacklistedFieldExists` is
invariant under permutation of the field map's entries (the decision does
not depend on iteration order of the keys). -/
theorem claim_C7_order_invariance {V : Type} (blacklist : List FieldPath)
    (fields fields' : List (FieldPath × V)) (h : fields.Perm fields') :
    blacklistedFieldExists blacklist fields =
      blacklistedFieldExists blacklist fields' := by
  have hk : (objectKeys fields).Perm (objectKeys fields') := h.map Prod.fst
  have hlen : (objectKeys fields).length = (objectKeys fields').length := hk.length_eq
  unfold blacklistedFieldExists
  rw [hlen]
  by_cases hcond : blacklist.length = 0 ∨ (objectKeys fields').length = 0
  · rw [if_pos hcond, if_pos hcond]
  · rw [if_neg hcond, if_neg hcond]
    exact perm_any_eq _ _ hk _

/-- Witness for C7: the two-entry field map `{a: 1, b: 2}` in both orders. -/
theorem claim_C7_order_invariance_witness :
    (([(['a'], 1), (['b'], 2)] : List (FieldPath × Nat)).Perm
      [(['b'], 2), (['a'], 1)]) ∧
    blacklistedFieldExists [['a']] ([(['a'], 1), (['b'], 2)] : List (FieldPath × Nat)) =
      blacklistedFieldExists [['a']] [(['b'], 2), (['a'], 1)] :=
  ⟨by decide,
    claim_C7_order_invariance [['a']] [(['a'], 1), (['b'], 2)] [(['b'], 2), (['a'], 1)]
      (by decide)⟩

/-- Counterexample for C2 as stated: in the earlier variant
(src/index.js), an uncovered update-hook invocation does not inject
exactly one set-on-insert of the created-at field — its injected
set-on-insert clause also contains the updated-at field.  Evaluated at
blacklist `[]`, the empty update operation, and `clock = fun _ => 0`. -/
theorem claim_C2_counterexample :
    EarlierVariant.updateFunc [] DEFAULT_CREATED_AT_FIELD DEFAULT_UPDATED_AT_FIELD
        (some (⟨none, none⟩ : UpdateOp Nat)) (fun _ => 0) =
      Except.ok (HookOutcome.inject
        (⟨some [(DEFAULT_UPDATED_AT_FIELD, 0)],
          some [(DEFAULT_CREATED_AT_FIELD, 0),
            (DEFAULT_UPDATED_AT_FIELD, 0)]⟩ : UpdateOp Nat)) ∧
    ¬(EarlierVariant.updateFunc [] DEFAULT_CREATED_AT_FIELD DEFAULT_UPDATED_AT_FIELD
        (some (⟨none, none⟩ : UpdateOp Nat)) (fun _ => 0) =
      Except.ok (HookOutcome.inject
        (⟨some [(DEFAULT_UPDATED_AT_FIELD, 0)],
          some [(DEFAULT_CREATED_AT_FIELD, 0)]⟩ : UpdateOp Nat))) := by
  refine ⟨rfl, fun h => ?_⟩
  have h' : (Except.ok (HookOutcome.inject
        (⟨some [(DEFAULT_UPDATED_AT_FIELD, 0)],
          some [(DEFAULT_CREATED_AT_FIELD, 0),
            (DEFAULT_UPDATED_AT_FIELD, 0)]⟩ : UpdateOp Nat)) :
      Except String (HookOutcome Nat)) =
      Except.ok (HookOutcome.inject
        (⟨some [(DEFAULT_UPDATED_AT_FIELD, 0)],
          some [(DEFAULT_CREATED_AT_FIELD, 0)]⟩ : UpdateOp Nat)) := h
  simp at h'

/-- C2 (amended): in every uncovered update-hook invocation the later
variant injects exactly one direct-set of the updated-at field and one
set-on-insert of the created-at field, both at the single current
instant; the earlier variant additionally includes the updated-at field
in the injected set-on-insert clause; in both variants the injection is
additive, so every originally requested field write is preserved by the
host's clause merge. -/
theorem claim_C2_amended_not_covered_injection {V : Type}
    (blacklist : List FieldPath) (createdAtField updatedAtField : FieldPath)
    (op : UpdateOp V) (clock : Nat → V)
    (h1 : clauseIsBlacklisted blacklist op.set = false)
    (h2 : clauseIsBlacklisted blacklist op.setOnInsert = false) :
    LaterVariant.updateFunc blacklist createdAtField updatedAtField (some op) clock =
      Except.ok (HookOutcome.inject
        (⟨some [(updatedAtField, clock 0)],
          some [(createdAtField, clock 0)]⟩ : UpdateOp V)) ∧
    EarlierVariant.updateFunc blacklist createdAtField updatedAtField (some op) clock =
      Except.ok (HookOutcome.inject
        (⟨some [(updatedAtField, clock 0)],
          some [(createdAtField, clock 0), (updatedAtField, clock 0)]⟩ : UpdateOp V)) ∧
    (∀ inj : UpdateOp V, ∀ kv ∈ clauseEntries op.set,
      kv ∈ clauseEntries (mergeUpdate op inj).set) ∧
    (∀ inj : UpdateOp V, ∀ kv ∈ clauseEntries op.setOnInsert,
      kv ∈ clauseEntries (mergeUpdate op inj).setOnInsert) := by
  refine ⟨updateFunc_not_covered_later blacklist createdAtField updatedAtField
      op clock h1 h2,
    updateFunc_not_covered_earlier blacklist createdAtField updatedAtField
      op clock h1 h2, ?_, ?_⟩
  · intro inj kv hkv
    exact mergeClause_preserves op.set inj.set kv hkv
  · intro inj kv hkv
    exact mergeClause_preserves op.setOnInsert inj.setOnInsert kv hkv

/-- Witness for the amended C2: blacklist `[]`, a direct-set writing `f`. -/
theorem claim_C2_amended_not_covered_injection_witness :
    (clauseIsBlacklisted []
        ((⟨some [(['f'], (5 : Nat))], none⟩ : UpdateOp Nat)).set = false ∧
      clauseIsBlacklisted []
        ((⟨some [(['f'], (5 : Nat))], none⟩ : UpdateOp Nat)).setOnInsert = false) ∧
    (LaterVariant.updateFunc [] ['c'] ['u']
        (some (⟨some [(['f'], (5 : Nat))], none⟩ : UpdateOp Nat)) (fun _ => 9) =
      Except.ok (HookOutcome.inject
        (⟨some [(['u'], 9)], some [(['c'], 9)]⟩ : UpdateOp Nat)) ∧
    EarlierVariant.updateFunc [] ['c'] ['u']
        (some (⟨some [(['f'], (5 : Nat))], none⟩ : UpdateOp Nat)) (fun _ => 9) =
      Except.ok (HookOutcome.inject
        (⟨some [(['u'], 9)], some [(['c'], 9), (['u'], 9)]⟩ : UpdateOp Nat)) ∧
    (∀ inj : UpdateOp Nat, ∀ kv ∈ clauseEntries
        ((⟨some [(['f'], (5 : Nat))], none⟩ : UpdateOp Nat)).set,
      kv ∈ clauseEntries
        (mergeUpdate (⟨some [(['f'], (5 : Nat))], none⟩ : UpdateOp Nat) inj).set) ∧
    (∀ inj : UpdateOp Nat, ∀ kv ∈ clauseEntries
        ((⟨some [(['f'], (5 : Nat))], none⟩ : UpdateOp Nat)).setOnInsert,
      kv ∈ clauseEntries
        (mergeUpdate (⟨some [(['f'], (5 : Nat))], none⟩ : UpdateOp Nat) inj).setOnInsert)) :=
  ⟨⟨by decide, by decide⟩,
    claim_C2_amended_not_covered_injection [] ['c'] ['u']
      (⟨some [(['f'], (5 : Nat))], none⟩ : UpdateOp Nat) (fun _ => 9)
      (by decide) (by decide)⟩

/-- C6: the current instant is read exactly once per hook invocation — the
hook bodies evaluate `clock 0` once — so whenever both timestamp fields
are set in one invocation (the insert path of the save hook, or the
injected direct-set plus set-on-insert of the update path) they receive
one and the same value. -/
theorem claim_C6_single_instant_per_invocation {V : Type}
    (shouldDisableSaveHook shouldForceCreateHook : Bool)
    (blacklist : List FieldPath) (createdAtField updatedAtField : FieldPath)
    (doc : List (FieldPath × V)) (op : UpdateOp V) (clock : Nat → V)
    (hsave : (shouldDisableSaveHook && !shouldForceCreateHook) = false)
    (h1 : clauseIsBlacklisted blacklist op.set = false)
    (h2 : clauseIsBlacklisted blacklist op.setOnInsert = false) :
    (∃ t, getProp (LaterVariant.saveFunc shouldDisableSaveHook shouldForceCreateHook
        createdAtField updatedAtField true doc clock) createdAtField = some t ∧
      getProp (LaterVariant.saveFunc shouldDisableSaveHook shouldForceCreateHook
        createdAtField updatedAtField true doc clock) updatedAtField = some t) ∧
    (∃ t, LaterVariant.updateFunc blacklist createdAtField updatedAtField
        (some op) clock =
      Except.ok (HookOutcome.inject
        (⟨some [(updatedAtField, t)], some [(createdAtField, t)]⟩ : UpdateOp V))) := by
  constructor
  · refine ⟨clock 0, ?_, ?_⟩
    · rw [LaterVariant.saveFunc_new_enabled shouldDisableSaveHook shouldForceCreateHook
        createdAtField updatedAtField doc clock hsave]
      exact (getProp_setProp_both doc createdAtField updatedAtField (clock 0)).1
    · rw [LaterVariant.saveFunc_new_enabled shouldDisableSaveHook shouldForceCreateHook
        createdAtField updatedAtField doc clock hsave]
      exact (getProp_setProp_both doc createdAtField updatedAtField (clock 0)).2
  · exact ⟨clock 0, updateFunc_not_covered_later blacklist createdAtField
      updatedAtField op clock h1 h2⟩

/-- Witness for C6: save hook enabled with `forceCreateHook`, empty
blacklist, empty update operation. -/
theorem claim_C6_single_instant_per_invocation_witness :
    ((true && !true) = false ∧
      clauseIsBlacklisted ([] : List FieldPath)
        ((⟨none, none⟩ : UpdateOp Nat)).set = false ∧
      clauseIsBlacklisted ([] : List FieldPath)
        ((⟨none, none⟩ : UpdateOp Nat)).setOnInsert = false) ∧
    ((∃ t, getProp (LaterVariant.saveFunc true true ['c'] ['u'] true
        ([] : List (FieldPath × Nat)) (fun _ => 4)) ['c'] = some t ∧
      getProp (LaterVariant.saveFunc true true ['c'] ['u'] true
        ([] : List (FieldPath × Nat)) (fun _ => 4)) ['u'] = some t) ∧
    (∃ t, LaterVariant.updateFunc [] ['c'] ['u']
        (some (⟨none, none⟩ : UpdateOp Nat)) (fun _ => 4) =
      Except.ok (HookOutcome.inject
        (⟨some [(['u'], t)], some [(['c'], t)]⟩ : UpdateOp Nat)))) :=
  ⟨⟨by decide, by decide, by decide⟩,
    claim_C6_single_instant_per_invocation true true [] ['c'] ['u']
      ([] : List (FieldPath × Nat)) (⟨none, none⟩ : UpdateOp Nat) (fun _ => 4)
      (by decide) (by decide) (by decide)⟩

/-- C8: attaching the plugin without a schema argument throws
`"Schema is required."` immediately — the constructor and both variants'
default exports return the error before any configuration state or hook
registration exists (the error carries no plugin state and no registered
events). -/
theorem claim_C8_missing_schema_fails (options : Options) :
    hmtConstructor none options = Except.error "Schema is required." ∧
    LaterVariant.attachPlugin none options = Except.error "Schema is required." ∧
    EarlierVariant.attachPlugin none options = Except.error "Schema is required." :=
  ⟨rfl, rfl, rfl⟩

/-- C9: `getUpdateFields` throws exactly when the update operation or the
operator is absent; on present arguments it returns the operation's clause
for that operator unmodified. -/
theorem claim_C9_getUpdateFields_throw_iff {V : Type}
    (updateOperation : Option (UpdateOp V)) (operator : Option MongoOperator) :
    ((∃ msg, getUpdateFields updateOperation operator = Except.error msg) ↔
      (updateOperation = none ∨ operator = none)) ∧
    (∀ (op : UpdateOp V) (o : MongoOperator),
      getUpdateFields (some op) (some o) = Except.ok (op.clause o)) := by
  constructor
  · cases updateOperation with
    | none => simp [getUpdateFields]
    | some op =>
      cases operator with
      | none => simp [getUpdateFields]
      | some o => simp [getUpdateFields]
  · intro op o
    rfl

/-- C10: an update operation with neither a direct-set nor a set-on-insert
clause extracts to absent maps without throwing, counts as not covered,
and still receives the injected timestamp clauses — the merged operation's
direct-set clause stamps the updated-at field. -/
theorem claim_C10_empty_update_still_stamped {V : Type} (blacklist : List FieldPath)
    (createdAtField updatedAtField : FieldPath) (clock : Nat → V) :
    getUpdateFields (some (⟨none, none⟩ : UpdateOp V)) (some MongoOperator.set) =
      Except.ok none ∧
    getUpdateFields (some (⟨none, none⟩ : UpdateOp V)) (some MongoOperator.setOnInsert) =
      Except.ok none ∧
    LaterVariant.updateFunc blacklist createdAtField updatedAtField
        (some (⟨none, none⟩ : UpdateOp V)) clock =
      Except.ok (HookOutcome.inject
        (⟨some [(updatedAtField, clock 0)],
          some [(createdAtField, clock 0)]⟩ : UpdateOp V)) ∧
    (updatedAtField, clock 0) ∈ clauseEntries
      ((applyHookOutcome (⟨none, none⟩ : UpdateOp V)
        (HookOutcome.inject
          (⟨some [(updatedAtField, clock 0)],
            some [(createdAtField, clock 0)]⟩ : UpdateOp V))).set) := by
  refine ⟨rfl, rfl, ?_, ?_⟩
  · exact updateFunc_not_covered_later blacklist createdAtField updatedAtField
      (⟨none, none⟩ : UpdateOp V) clock rfl rfl
  · simp [applyHookOutcome, mergeUpdate, mergeClause, clauseEntries]
